import Mathlib

/-!
Shallow embedding of the MachineDeployment rolling-update controller
(`pkg/controller/machinedeployment/rolling.go` and `status.go`) and of the
MachineDeployment validator (`Validate`/`ValidateMachineRollingUpdateDeployment`),
together with theorems checking the specification's claims about them.

Go `int32` replica counters are modelled as `Int` (replica counts are small;
no claim depends on 32-bit wraparound).  Fallible Go functions that return
`(..., error)` tuples are modelled as structures carrying an `err : Option Err`
field, mirroring the multi-value Go returns.  Store writes performed by the
set mutator are recorded in an explicit write log so that claims about
"no writes" and about the written values can be stated.
-/

set_option autoImplicit false

/-- Observed status of a MachineDeployment (`v1alpha1.MachineDeploymentStatus`):
observed generation plus the five aggregated replica counters. -/
structure MachineDeploymentStatus where
  observedGeneration : Int
  replicas : Int
  updatedReplicas : Int
  readyReplicas : Int
  availableReplicas : Int
  unavailableReplicas : Int
deriving DecidableEq

/-- A MachineSet as the rolling-update planner sees it: its desired replica
count (`Spec.Replicas`, a nilable `*int32` modelled as `Option Int`), the
observed status counters, and the creation timestamp used as ordering key. -/
structure MachineSet where
  name : String
  creationTimestamp : Nat
  specReplicas : Option Int
  statusReplicas : Int
  statusReadyReplicas : Int
  statusAvailableReplicas : Int
deriving DecidableEq

/-- A MachineDeployment as the planner sees it.  `maxUnavailable` and
`maxSurge` carry the values of `dutil.MaxUnavailable` / `dutil.MaxSurge`.
Modelled from the spec: the arithmetic resolution of the surge and
unavailability budgets (`dutil.ResolveFenceposts`, not under `src/`) is kept
abstract; the model carries the already-resolved integers, which is how every
claim about the planner phrases them (`d.replicas − maxUnavailable`). -/
structure MachineDeployment where
  name : String
  specReplicas : Option Int
  generation : Int
  status : MachineDeploymentStatus
  maxUnavailable : Int
  maxSurge : Int
deriving DecidableEq

/-- One store write issued by the set mutator: the set's name, its desired
replica count at the moment of the write, and the newly written count. -/
structure ScaleWrite where
  setName : String
  oldCount : Int
  newCount : Int
deriving DecidableEq

/-- Errors the planner can return: the nil-`Spec.Replicas` guard errors and
the fatal "invalid request to scale down" planning errors. -/
inductive Err where
  | nilReplicas (name : String)
  | invalidScaleDown (name : String) (oldCount newCount : Int)
deriving DecidableEq

/-- Result of one scale-down phase (`cleanupUnhealthyReplicas` or
`scaleDownOldMachineSetsForRollingUpdate`): the returned machine-set list,
the returned scaled-down count, the log of store writes performed, and the
returned error (if any). -/
structure PhaseResult where
  sets : List MachineSet
  count : Int
  writes : List ScaleWrite
  err : Option Err
deriving DecidableEq

/-- Result of `reconcileOldMachineSets`: returned old sets, write log, error. -/
structure ReconcileResult where
  sets : List MachineSet
  writes : List ScaleWrite
  err : Option Err
deriving DecidableEq

/-- Result of `reconcileNewMachineSet`: returned new set, write log, error. -/
structure ReconcileNewResult where
  newMS : MachineSet
  writes : List ScaleWrite
  err : Option Err
deriving DecidableEq

/-- Modelled from the spec: `dutil.GetReplicaCountForMachineSets` (not under
`src/`), the spec's `totalReplicas(sets) = Σ set.spec.replicas`.  A nil
replica field contributes nothing to the sum. -/
def GetReplicaCountForMachineSets (sets : List MachineSet) : Int :=
  (sets.map (fun ms => ms.specReplicas.getD 0)).sum

/-- Modelled from the spec: `dutil.GetAvailableReplicaCountForMachineSets`
(not under `src/`), the spec's `totalAvailable(sets) = Σ set.status.availableReplicas`. -/
def GetAvailableReplicaCountForMachineSets (sets : List MachineSet) : Int :=
  (sets.map MachineSet.statusAvailableReplicas).sum

/-- Modelled from the spec: `dutil.MaxUnavailable` (not under `src/`) resolves
the strategy's `maxUnavailable` against the deployment's replicas; the model
carries the resolved value on the deployment. -/
def MaxUnavailable (d : MachineDeployment) : Int :=
  d.maxUnavailable

/-- Comparison used by `dutil.MachineSetsByCreationTimestamp` (not under
`src/`): modelled from the spec as ascending creation order, with the set
name as tie-breaker. -/
def msBefore (a b : MachineSet) : Bool :=
  decide (a.creationTimestamp < b.creationTimestamp) ||
    (decide (a.creationTimestamp = b.creationTimestamp) && decide (a.name < b.name))

/-- Insert a machine set into a list sorted by `msBefore`. -/
def insertByCreation (ms : MachineSet) : List MachineSet → List MachineSet
  | [] => [ms]
  | x :: xs => if msBefore x ms then x :: insertByCreation ms xs else ms :: x :: xs

/-- Modelled from the spec: `sort.Sort(dutil.MachineSetsByCreationTimestamp ...)`,
as an insertion sort in ascending creation order. -/
def sortByCreation : List MachineSet → List MachineSet
  | [] => []
  | x :: xs => insertByCreation x (sortByCreation xs)

/-- Modelled from the spec: the set mutator `scaleMachineSet` (not under
`src/`), §4.5: `scale(set, n, d)` writes `set.spec.replicas = n` if and only
if `n != set.spec.replicas`, otherwise it is a no-op; the returned set carries
the written count.  The transient store-conflict error is outside this pure
model. -/
def scaleMachineSet (ms : MachineSet) (newScale : Int) : MachineSet × List ScaleWrite :=
  if ms.specReplicas = some newScale then (ms, [])
  else ({ ms with specReplicas := some newScale },
        [⟨ms.name, ms.specReplicas.getD 0, newScale⟩])

/-- Loop body of `cleanupUnhealthyReplicas` (rolling.go:169-203), iterating
over the already-sorted old sets with the accumulated `totalScaledDown`.
On error the Go code returns a nil slice and count 0 (rolling.go:171,195),
which the model mirrors; writes performed before the error stand. -/
def cleanupLoop (maxCleanupCount : Int) : List MachineSet → Int → PhaseResult
  | [], total => ⟨[], total, [], none⟩
  | ms :: rest, total =>
    match ms.specReplicas with
    | none => ⟨[], 0, [], some (Err.nilReplicas ms.name)⟩
    | some oldMSReplicas =>
      if maxCleanupCount ≤ total then ⟨ms :: rest, total, [], none⟩
      else if oldMSReplicas = 0 then
        let r := cleanupLoop maxCleanupCount rest total
        if r.err.isSome then r else ⟨ms :: r.sets, r.count, r.writes, r.err⟩
      else if oldMSReplicas = ms.statusAvailableReplicas then
        let r := cleanupLoop maxCleanupCount rest total
        if r.err.isSome then r else ⟨ms :: r.sets, r.count, r.writes, r.err⟩
      else
        let remainingCleanupCount := maxCleanupCount - total
        let unhealthyCount := oldMSReplicas - ms.statusAvailableReplicas
        let scaledDownCount := min remainingCleanupCount unhealthyCount
        let newReplicasCount := oldMSReplicas - scaledDownCount
        if oldMSReplicas < newReplicasCount then
          ⟨[], 0, [], some (Err.invalidScaleDown ms.name oldMSReplicas newReplicasCount)⟩
        else
          let p := scaleMachineSet ms newReplicasCount
          let r := cleanupLoop maxCleanupCount rest (total + scaledDownCount)
          if r.err.isSome then ⟨r.sets, r.count, p.2 ++ r.writes, r.err⟩
          else ⟨p.1 :: r.sets, r.count, p.2 ++ r.writes, r.err⟩

/-- `cleanupUnhealthyReplicas` (rolling.go:163-205): sort the old sets by
creation timestamp, then scale down unhealthy replicas up to
`maxCleanupCount`.  The deployment argument of the Go function is only passed
through to the set mutator and is dropped in the pure model. -/
def cleanupUnhealthyReplicas (oldMSs : List MachineSet) (maxCleanupCount : Int) : PhaseResult :=
  cleanupLoop maxCleanupCount (sortByCreation oldMSs) 0

/-- Loop body of `scaleDownOldMachineSetsForRollingUpdate` (rolling.go:231-256).
On error the Go code returns the current (partially updated) slice. -/
def scaleDownOldLoop (totalScaleDownCount : Int) : List MachineSet → Int → PhaseResult
  | [], total => ⟨[], total, [], none⟩
  | ms :: rest, total =>
    match ms.specReplicas with
    | none => ⟨ms :: rest, 0, [], some (Err.nilReplicas ms.name)⟩
    | some specReplicas =>
      if totalScaleDownCount ≤ total then ⟨ms :: rest, total, [], none⟩
      else if specReplicas = 0 then
        let r := scaleDownOldLoop totalScaleDownCount rest total
        ⟨ms :: r.sets, r.count, r.writes, r.err⟩
      else
        let scaleDownCount := min specReplicas (totalScaleDownCount - total)
        let newReplicasCount := specReplicas - scaleDownCount
        if specReplicas < newReplicasCount then
          ⟨ms :: rest, total, [], some (Err.invalidScaleDown ms.name specReplicas newReplicasCount)⟩
        else
          let p := scaleMachineSet ms newReplicasCount
          let r := scaleDownOldLoop totalScaleDownCount rest (total + scaleDownCount)
          ⟨p.1 :: r.sets, r.count, p.2 ++ r.writes, r.err⟩

/-- `scaleDownOldMachineSetsForRollingUpdate` (rolling.go:209-259). -/
def scaleDownOldMachineSetsForRollingUpdate (allMSs oldMSs : List MachineSet)
    (d : MachineDeployment) : PhaseResult :=
  match d.specReplicas with
  | none => ⟨oldMSs, 0, [], some (Err.nilReplicas d.name)⟩
  | some dReplicas =>
    let minAvailable := dReplicas - MaxUnavailable d
    let availableMachineCount := GetAvailableReplicaCountForMachineSets allMSs
    if availableMachineCount ≤ minAvailable then ⟨oldMSs, 0, [], none⟩
    else scaleDownOldLoop (availableMachineCount - minAvailable) (sortByCreation oldMSs) 0

/-- `reconcileOldMachineSets` (rolling.go:88-160).  Note rolling.go:145-148:
when `cleanupUnhealthyReplicas` returns an error, the function returns the
(nil) set list from the cleanup phase together with a nil error. -/
def reconcileOldMachineSets (allMSs oldMSs : List MachineSet) (newMS : MachineSet)
    (d : MachineDeployment) : ReconcileResult :=
  match d.specReplicas, newMS.specReplicas with
  | none, _ => ⟨oldMSs, [], some (Err.nilReplicas d.name)⟩
  | some _, none => ⟨oldMSs, [], some (Err.nilReplicas newMS.name)⟩
  | some dReplicas, some newReplicas =>
    if GetReplicaCountForMachineSets oldMSs = 0 then ⟨oldMSs, [], none⟩
    else
      let allMachinesCount := GetReplicaCountForMachineSets allMSs
      let minAvailable := dReplicas - MaxUnavailable d
      let newMSUnavailableMachineCount := newReplicas - newMS.statusAvailableReplicas
      let maxScaledDown := allMachinesCount - minAvailable - newMSUnavailableMachineCount
      if maxScaledDown ≤ 0 then ⟨oldMSs, [], none⟩
      else
        let c := cleanupUnhealthyReplicas oldMSs maxScaledDown
        match c.err with
        | some _ => ⟨c.sets, c.writes, none⟩
        | none =>
          let s := scaleDownOldMachineSetsForRollingUpdate (c.sets ++ [newMS]) c.sets d
          ⟨s.sets, c.writes ++ s.writes, s.err⟩

/-- Modelled from the spec: `dutil.NewMSNewReplicas` (not under `src/`), §4.3
step 3: `headroom = (d.replicas + surge) − totalReplicas(allSets)`; the next
count is `min(d.replicas, newSet.spec.replicas + max(0, headroom))`. -/
def NewMSNewReplicas (d : MachineDeployment) (allMSs : List MachineSet)
    (newMSReplicas : Int) : Int :=
  min (d.specReplicas.getD 0)
    (newMSReplicas + max 0 ((d.specReplicas.getD 0 + d.maxSurge) - GetReplicaCountForMachineSets allMSs))

/-- `reconcileNewMachineSet` (rolling.go:62-86). -/
def reconcileNewMachineSet (allMSs : List MachineSet) (newMS : MachineSet)
    (d : MachineDeployment) : ReconcileNewResult :=
  match d.specReplicas, newMS.specReplicas with
  | none, _ => ⟨newMS, [], some (Err.nilReplicas d.name)⟩
  | some _, none => ⟨newMS, [], some (Err.nilReplicas newMS.name)⟩
  | some dReplicas, some newReplicas =>
    if newReplicas = dReplicas then ⟨newMS, [], none⟩
    else if dReplicas < newReplicas then
      let p := scaleMachineSet newMS dReplicas
      ⟨p.1, p.2, none⟩
    else
      let p := scaleMachineSet newMS (NewMSNewReplicas d allMSs newReplicas)
      ⟨p.1, p.2, none⟩

/-- Accumulation step of the status aggregation loop (status.go:17-21). -/
def addMSStatus (st : MachineDeploymentStatus) (ms : MachineSet) : MachineDeploymentStatus :=
  { st with
    replicas := st.replicas + ms.statusReplicas,
    readyReplicas := st.readyReplicas + ms.statusReadyReplicas,
    availableReplicas := st.availableReplicas + ms.statusAvailableReplicas }

/-- `ensureStatus` (status.go:11-35).  The aggregated status starts from
`{ObservedGeneration: md.Generation, UpdatedReplicas: newMS.Status.Replicas}`
(all other counters zero), sums over `oldMSs ++ [newMS]`, clamps
`unavailableReplicas` at zero, and issues a status write exactly when the new
status differs from the current one (`equality.Semantic.DeepEqual`).  The Go
code dereferences `*md.Spec.Replicas` without a nil check; `none` models
that panic.  The Bool records whether a status write was issued. -/
def ensureStatus (md : MachineDeployment) (newMS : MachineSet) (oldMSs : List MachineSet) :
    Option (MachineDeployment × Bool) :=
  match md.specReplicas with
  | none => none
  | some dReplicas =>
    let agg := (oldMSs ++ [newMS]).foldl addMSStatus
      ⟨md.generation, 0, newMS.statusReplicas, 0, 0, 0⟩
    let unavail := dReplicas - agg.availableReplicas
    let newStatus := { agg with unavailableReplicas := if unavail < 0 then 0 else unavail }
    if newStatus = md.status then some (md, false)
    else some ({ md with status := newStatus }, true)

/-- Modelled from the spec: `dutil.DeploymentComplete` (not under `src/`),
§4.6 step 6: `updatedReplicas == d.replicas` and `available == d.replicas`
and `observedGeneration ≥ d.generation`.  The spec's further conjunct "no old
set has `spec.replicas > 0`" is not expressible over the `(deployment, status)`
arguments the call site rolling.go:52 passes and is omitted. -/
def DeploymentComplete (d : MachineDeployment) (st : MachineDeploymentStatus) : Bool :=
  decide (st.updatedReplicas = d.specReplicas.getD 0) &&
    decide (st.availableReplicas = d.specReplicas.getD 0) &&
    decide (d.generation ≤ st.observedGeneration)

/-- Observable events of one tick of `rolloutRolling`, in execution order:
child-set scale writes, the `DeploymentComplete` check (with the status value
it reads and its outcome), the cleanup-hook invocation, the status write
(with the status value written). -/
inductive TickEvent where
  | scaleWrite (w : ScaleWrite)
  | completeCheck (st : MachineDeploymentStatus) (result : Bool)
  | cleanupHook
  | statusWrite (st : MachineDeploymentStatus)
deriving DecidableEq

/-- Result of one tick: the ordered event trace and the returned error. -/
structure TickResult where
  events : List TickEvent
  err : Option Err
deriving DecidableEq

/-- `rolloutRolling` (rolling.go:33-60) from the point where the revision
selector has produced `(newMS, oldMSs)`; `getAllMachineSetsAndSyncRevision`
is not under `src/`, so its output is taken as input.  The body follows
rolling.go:38-59 literally: scale up, scale down, the `DeploymentComplete`
check on `d.Status` with the cleanup hook, and finally `ensureStatus`. -/
def rolloutRollingFrom (d : MachineDeployment) (newMS0 : MachineSet)
    (oldMSs0 : List MachineSet) : TickResult :=
  let allMSs := oldMSs0 ++ [newMS0]
  let rn := reconcileNewMachineSet allMSs newMS0 d
  match rn.err with
  | some e => ⟨rn.writes.map TickEvent.scaleWrite, some e⟩
  | none =>
    let ro := reconcileOldMachineSets allMSs oldMSs0 rn.newMS d
    match ro.err with
    | some e =>
      ⟨rn.writes.map TickEvent.scaleWrite ++ ro.writes.map TickEvent.scaleWrite, some e⟩
    | none =>
      let complete := DeploymentComplete d d.status
      let ev0 := rn.writes.map TickEvent.scaleWrite ++ ro.writes.map TickEvent.scaleWrite ++
        [TickEvent.completeCheck d.status complete] ++
        (if complete then [TickEvent.cleanupHook] else [])
      match ensureStatus d rn.newMS ro.sets with
      | none => ⟨ev0, some (Err.nilReplicas d.name)⟩
      | some p => ⟨ev0 ++ (if p.2 then [TickEvent.statusWrite p.1.status] else []), none⟩

/-- Whether a tick event is the `DeploymentComplete` check. -/
def isCompleteCheck : TickEvent → Bool
  | TickEvent.completeCheck _ _ => true
  | _ => false

/-- True when no `completeCheck` event occurs after a `statusWrite` event. -/
def noCheckAfterWrite : List TickEvent → Bool
  | [] => true
  | TickEvent.statusWrite _ :: rest =>
    rest.all (fun e => !isCompleteCheck e) && noCheckAfterWrite rest
  | _ :: rest => noCheckAfterWrite rest

/-- Reference loop for claim C3, following the spec's words for phase B
(§4.4 Phase B): iterate the (already sorted) old sets; for each with
`spec.replicas > 0`, let `delta = min(spec.replicas, quota_remaining)`;
set its desired count to `spec.replicas − delta`; decrement the remaining
quota; stop when the quota is exhausted.  Returns the accumulated total
reduction and the resulting sets. -/
def specScaleDownLoop (quota : Int) : List MachineSet → Int × List MachineSet
  | [] => (0, [])
  | ms :: rest =>
    if quota ≤ 0 then (0, ms :: rest)
    else
      let spec := ms.specReplicas.getD 0
      if 0 < spec then
        let delta := min spec quota
        let p := specScaleDownLoop (quota - delta) rest
        (delta + p.1, { ms with specReplicas := some (spec - delta) } :: p.2)
      else
        let p := specScaleDownLoop quota rest
        (p.1, ms :: p.2)

/-- Reference loop for claim C4, following the spec's words for phase A
(§4.4 Phase A): iterate the (already sorted) old sets; each old set with
`spec.replicas > status.availableReplicas` and `spec.replicas > 0` has its
desired count reduced by `min(budget_remaining, spec.replicas − status.availableReplicas)`;
all other sets are skipped.  Returns the accumulated total cleaned and the
resulting sets. -/
def specCleanupLoop (budget : Int) : List MachineSet → Int × List MachineSet
  | [] => (0, [])
  | ms :: rest =>
    let spec := ms.specReplicas.getD 0
    if ms.statusAvailableReplicas < spec ∧ 0 < spec then
      let delta := min budget (spec - ms.statusAvailableReplicas)
      let p := specCleanupLoop (budget - delta) rest
      (delta + p.1, { ms with specReplicas := some (spec - delta) } :: p.2)
    else
      let p := specCleanupLoop budget rest
      (p.1, ms :: p.2)

/-- The `intstr.IntOrString` union type of the validator's budget fields. -/
inductive IntOrString where
  | intVal (i : Int)
  | strVal (s : String)
deriving DecidableEq

/-- The `MachineRollingUpdateDeployment` strategy parameters validated by
`ValidateMachineRollingUpdateDeployment`. -/
structure MachineRollingUpdateDeployment where
  maxUnavailable : Option IntOrString
  maxSurge : Option IntOrString
deriving DecidableEq

/-- Validation error kinds produced by `ValidateMachineRollingUpdateDeployment`,
tagging the four `field.Invalid` messages. -/
inductive VErr where
  | malformedValue
  | negativeValue
  | unavailableTooLarge
  | bothZeroValue
deriving DecidableEq

/-- Numeric value of a digit string (callers guarantee all characters are
decimal digits). -/
def digitsVal (cs : List Char) : Nat :=
  cs.foldl (fun n c => 10 * n + (c.toNat - 48)) 0

/-- Modelled from the library dependency: Go `strconv.Atoi` as used by
`intstr.getIntOrPercentValue` — an optional `+`/`-` sign followed by at least
one decimal digit (overflow is out of scope for the Int model). -/
def atoiChars : List Char → Option Int
  | [] => none
  | '+' :: rest =>
    if !rest.isEmpty && rest.all Char.isDigit then some (digitsVal rest) else none
  | '-' :: rest =>
    if !rest.isEmpty && rest.all Char.isDigit then some (-(digitsVal rest : Int)) else none
  | cs =>
    if cs.all Char.isDigit then some (digitsVal cs) else none

/-- The `StrVal` field of an `intstr.IntOrString`: empty for the Int variant. -/
def strValOf : IntOrString → String
  | IntOrString.intVal _ => ""
  | IntOrString.strVal s => s

/-- Modelled from the library dependency: `intstr.getIntOrPercentValue` — an
Int variant is its value (not a percent); a String variant has every `%`
character removed and the remainder parsed with `Atoi`, and counts as a
percent; a parse failure is an error. -/
def getIntOrPercentValue : IntOrString → Except String (Int × Bool)
  | IntOrString.intVal i => Except.ok (i, false)
  | IntOrString.strVal s =>
    match atoiChars (s.data.filter (fun c => c ≠ '%')) with
    | some v => Except.ok (v, true)
    | none => Except.error "invalid value"

/-- Floor of `a / 100` on integers (`math.Floor` on the exact quotient). -/
def floorDiv100 (a : Int) : Int := a / 100

/-- Ceiling of `a / 100` on integers (`math.Ceil` on the exact quotient). -/
def ceilDiv100 (a : Int) : Int := -((-a) / 100)

/-- Modelled from the library dependency: `intstr.GetValueFromIntOrPercent`:
percent values are scaled by `total/100` with the requested rounding
direction; plain ints pass through. -/
def GetValueFromIntOrPercent (s : IntOrString) (total : Int) (roundUp : Bool) :
    Except String Int :=
  match getIntOrPercentValue s with
  | Except.error e => Except.error e
  | Except.ok (v, isPercent) =>
    if isPercent then
      if roundUp then Except.ok (ceilDiv100 (v * total))
      else Except.ok (floorDiv100 (v * total))
    else Except.ok v

/-- `getIntOrPercent` (part_000:102-104): resolve against a total of 100. -/
def getIntOrPercent (s : IntOrString) (roundUp : Bool) : Except String Int :=
  GetValueFromIntOrPercent s 100 roundUp

/-- The value Go callers keep after `value, _ = getIntOrPercent(...)`:
the resolved value, or 0 when resolution failed. -/
def getIntOrPercentD (s : IntOrString) (roundUp : Bool) : Int :=
  match getIntOrPercent s roundUp with
  | Except.ok v => v
  | Except.error _ => 0

/-- Modelled from the library dependency: `utilvalidation.IsValidPercent`
reduced to its boolean outcome — the string matches `[0-9]+%` exactly. -/
def isValidPercent (s : String) : Bool :=
  match s.data.reverse with
  | '%' :: rest => !rest.isEmpty && rest.all Char.isDigit
  | _ => false

/-- `ValidatePositiveIntOrPercent` (part_000:92-100). -/
def ValidatePositiveIntOrPercent (s : IntOrString) : List VErr :=
  match getIntOrPercent s false with
  | Except.error _ => [VErr.malformedValue]
  | Except.ok x => if x < 0 then [VErr.negativeValue] else []

/-- `ValidateMachineRollingUpdateDeployment` (part_000:64-90), with errors
reduced to their kind tags, in the order the Go code appends them. -/
def ValidateMachineRollingUpdateDeployment (ru : MachineRollingUpdateDeployment) : List VErr :=
  let muErrs :=
    match ru.maxUnavailable with
    | none => []
    | some u =>
      ValidatePositiveIntOrPercent u ++
        (if isValidPercent (strValOf u) = true ∧ 100 < getIntOrPercentD u false then
          [VErr.unavailableTooLarge]
        else [])
  let msErrs :=
    match ru.maxSurge with
    | none => []
    | some v => ValidatePositiveIntOrPercent v
  let bothZeroErrs :=
    match ru.maxUnavailable, ru.maxSurge with
    | some u, some v =>
      if getIntOrPercentD u false = 0 ∧ getIntOrPercentD v true = 0 then
        [VErr.bothZeroValue]
      else []
    | _, _ => []
  muErrs ++ msErrs ++ bothZeroErrs

/-- The claim's notion of a malformed budget value (claim C9): neither an
integer nor a string of the exact form `N%` (digits followed by a percent
sign). -/
def claimMalformed : IntOrString → Bool
  | IntOrString.intVal _ => false
  | IntOrString.strVal s => !isValidPercent s

theorem foldl_addMSStatus (l : List MachineSet) (st0 : MachineDeploymentStatus) :
    l.foldl addMSStatus st0 =
      { st0 with
        replicas := st0.replicas + (l.map MachineSet.statusReplicas).sum,
        readyReplicas := st0.readyReplicas + (l.map MachineSet.statusReadyReplicas).sum,
        availableReplicas := st0.availableReplicas + (l.map MachineSet.statusAvailableReplicas).sum } := by
  induction l generalizing st0 with
  | nil => simp
  | cons a l ih =>
    simp only [List.foldl_cons, ih, addMSStatus, List.map_cons, List.sum_cons]
    congr 1 <;> ring

/-- C8: the status aggregated by `ensureStatus` has `updatedReplicas` equal to
the new set's observed replicas; `replicas`, `readyReplicas` and
`availableReplicas` equal to the sums of the corresponding status fields over
all owned sets (old sets plus new set); `unavailableReplicas = max(0,
d.replicas − available)`; `observedGeneration = d.generation`; and a status
write is issued if and only if the new status differs from the current one. -/
theorem ensureStatus_spec (md : MachineDeployment) (newMS : MachineSet)
    (oldMSs : List MachineSet) (dReplicas : Int) (h : md.specReplicas = some dReplicas) :
    ensureStatus md newMS oldMSs =
      (let available := ((oldMSs ++ [newMS]).map MachineSet.statusAvailableReplicas).sum
       let newStatus : MachineDeploymentStatus :=
        ⟨md.generation,
         ((oldMSs ++ [newMS]).map MachineSet.statusReplicas).sum,
         newMS.statusReplicas,
         ((oldMSs ++ [newMS]).map MachineSet.statusReadyReplicas).sum,
         available,
         max 0 (dReplicas - available)⟩
       if newStatus = md.status then some (md, false)
       else some ({ md with status := newStatus }, true)) := by
  have hmax : ∀ a : Int, (if a < 0 then (0:Int) else a) = max 0 a := by
    intro a
    rcases le_or_lt 0 a with h1 | h1
    · rw [if_neg (not_lt.mpr h1), max_eq_right h1]
    · rw [if_pos h1, max_eq_left (le_of_lt h1)]
  simp only [ensureStatus, h, foldl_addMSStatus, hmax, zero_add]

/-- Witness for C8 at a concrete input: the aggregate over one old and one
new set, with a status write because the status changed. -/
theorem ensureStatus_spec_instance :
    ensureStatus ⟨"d", some 3, 7, ⟨0,0,0,0,0,0⟩, 0, 1⟩ ⟨"new", 1, some 1, 1, 1, 1⟩
      [⟨"old", 0, some 2, 2, 2, 2⟩] =
      some (⟨"d", some 3, 7, ⟨7, 3, 1, 3, 3, 0⟩, 0, 1⟩, true) := by
  rw [ensureStatus_spec ⟨"d", some 3, 7, ⟨0,0,0,0,0,0⟩, 0, 1⟩ ⟨"new", 1, some 1, 1, 1, 1⟩
    [⟨"old", 0, some 2, 2, 2, 2⟩] 3 rfl]
  decide

/-- C1: given non-nil deployment and new-set replica counts,
`reconcileOldMachineSets` returns the old sets unchanged, with no writes and
no error, when `totalReplicas(oldSets) = 0`; otherwise, when the budget
`totalReplicas(allSets) − (d.replicas − maxUnavailable) − (newSet.spec.replicas
− newSet.status.availableReplicas)` is ≤ 0, it also returns the old sets
unchanged with no writes. -/
theorem reconcileOldMachineSets_early_return_spec (allMSs oldMSs : List MachineSet)
    (newMS : MachineSet) (d : MachineDeployment) (dReplicas newReplicas : Int)
    (hd : d.specReplicas = some dReplicas) (hn : newMS.specReplicas = some newReplicas) :
    (GetReplicaCountForMachineSets oldMSs = 0 →
      reconcileOldMachineSets allMSs oldMSs newMS d = ⟨oldMSs, [], none⟩) ∧
    (GetReplicaCountForMachineSets oldMSs ≠ 0 →
      GetReplicaCountForMachineSets allMSs - (dReplicas - MaxUnavailable d) -
        (newReplicas - newMS.statusAvailableReplicas) ≤ 0 →
      reconcileOldMachineSets allMSs oldMSs newMS d = ⟨oldMSs, [], none⟩) := by
  constructor
  · intro h0
    simp [reconcileOldMachineSets, hd, hn, h0]
  · intro h0 hb
    simp [reconcileOldMachineSets, hd, hn, h0, hb]

/-- Witness for C1 at a concrete input: a single drained old set. -/
theorem reconcileOldMachineSets_early_return_instance :
    reconcileOldMachineSets [⟨"old", 0, some 0, 0, 0, 0⟩, ⟨"new", 1, some 1, 1, 1, 1⟩]
      [⟨"old", 0, some 0, 0, 0, 0⟩] ⟨"new", 1, some 1, 1, 1, 1⟩
      ⟨"d", some 1, 0, ⟨0,0,0,0,0,0⟩, 0, 1⟩ = ⟨[⟨"old", 0, some 0, 0, 0, 0⟩], [], none⟩ :=
  (reconcileOldMachineSets_early_return_spec
    [⟨"old", 0, some 0, 0, 0, 0⟩, ⟨"new", 1, some 1, 1, 1, 1⟩]
    [⟨"old", 0, some 0, 0, 0, 0⟩] ⟨"new", 1, some 1, 1, 1, 1⟩
    ⟨"d", some 1, 0, ⟨0,0,0,0,0,0⟩, 0, 1⟩ 1 1 rfl rfl).1 (by decide)

/-- C6: given non-nil replica counts, `reconcileNewMachineSet` is a no-op
(no scale call, the new set returned unchanged) when the new set's desired
count equals the deployment's, and scales the new set down to exactly
`d.replicas` when the new set's desired count exceeds it. -/
theorem reconcileNewMachineSet_noop_and_shrink (allMSs : List MachineSet) (newMS : MachineSet)
    (d : MachineDeployment) (dReplicas newReplicas : Int)
    (hd : d.specReplicas = some dReplicas) (hn : newMS.specReplicas = some newReplicas) :
    (newReplicas = dReplicas →
      reconcileNewMachineSet allMSs newMS d = ⟨newMS, [], none⟩) ∧
    (dReplicas < newReplicas →
      reconcileNewMachineSet allMSs newMS d =
        ⟨{ newMS with specReplicas := some dReplicas },
         [⟨newMS.name, newReplicas, dReplicas⟩], none⟩) := by
  constructor
  · intro he
    simp [reconcileNewMachineSet, hd, hn, he]
  · intro hl
    have hne : ¬ (newReplicas = dReplicas) := by omega
    simp [reconcileNewMachineSet, hd, hn, hne, hl, scaleMachineSet, Option.some.injEq,
      Ne.symm (ne_of_lt hl)]

/-- Witness for C6 at a concrete input: a user shrink from 3 to 2 replicas. -/
theorem reconcileNewMachineSet_noop_and_shrink_instance :
    reconcileNewMachineSet [] ⟨"new", 0, some 3, 3, 3, 3⟩
      ⟨"d", some 2, 0, ⟨0,0,0,0,0,0⟩, 0, 1⟩ =
      ⟨⟨"new", 0, some 2, 3, 3, 3⟩, [⟨"new", 3, 2⟩], none⟩ :=
  (reconcileNewMachineSet_noop_and_shrink [] ⟨"new", 0, some 3, 3, 3, 3⟩
    ⟨"d", some 2, 0, ⟨0,0,0,0,0,0⟩, 0, 1⟩ 2 3 rfl rfl).2 (by decide)

/-- C5: whenever the cleanup phase invoked by `reconcileOldMachineSets`
returns a non-nil error, `reconcileOldMachineSets` returns a nil error
(rolling.go:146-148 swallows the error), so the tick continues. -/
theorem reconcileOldMachineSets_swallows_cleanup_error (allMSs oldMSs : List MachineSet)
    (newMS : MachineSet) (d : MachineDeployment) (dReplicas newReplicas : Int) (e : Err)
    (hd : d.specReplicas = some dReplicas) (hn : newMS.specReplicas = some newReplicas)
    (h0 : GetReplicaCountForMachineSets oldMSs ≠ 0)
    (hb : 0 < GetReplicaCountForMachineSets allMSs - (dReplicas - MaxUnavailable d) -
      (newReplicas - newMS.statusAvailableReplicas))
    (hc : (cleanupUnhealthyReplicas oldMSs
        (GetReplicaCountForMachineSets allMSs - (dReplicas - MaxUnavailable d) -
          (newReplicas - newMS.statusAvailableReplicas))).err = some e) :
    (reconcileOldMachineSets allMSs oldMSs newMS d).err = none := by
  have hb' : ¬ (GetReplicaCountForMachineSets allMSs - (dReplicas - MaxUnavailable d) -
      (newReplicas - newMS.statusAvailableReplicas) ≤ 0) := by omega
  simp [reconcileOldMachineSets, hd, hn, h0, hb', hc]

/-- Witness for C5 at a concrete input: a second old set with a nil replica
count makes the cleanup phase fail; the planner still reports no error. -/
theorem reconcileOldMachineSets_swallows_cleanup_error_instance :
    (cleanupUnhealthyReplicas [⟨"a", 0, some 2, 2, 2, 2⟩, ⟨"b", 1, none, 0, 0, 0⟩]
      (GetReplicaCountForMachineSets
          [⟨"a", 0, some 2, 2, 2, 2⟩, ⟨"b", 1, none, 0, 0, 0⟩, ⟨"new", 2, some 0, 0, 0, 0⟩] -
        ((1:Int) - MaxUnavailable ⟨"d", some 1, 0, ⟨0,0,0,0,0,0⟩, 0, 1⟩) -
        ((0:Int) - (0:Int)))).err = some (Err.nilReplicas "b") ∧
    (reconcileOldMachineSets
      [⟨"a", 0, some 2, 2, 2, 2⟩, ⟨"b", 1, none, 0, 0, 0⟩, ⟨"new", 2, some 0, 0, 0, 0⟩]
      [⟨"a", 0, some 2, 2, 2, 2⟩, ⟨"b", 1, none, 0, 0, 0⟩] ⟨"new", 2, some 0, 0, 0, 0⟩
      ⟨"d", some 1, 0, ⟨0,0,0,0,0,0⟩, 0, 1⟩).err = none :=
  ⟨by decide,
   reconcileOldMachineSets_swallows_cleanup_error
    [⟨"a", 0, some 2, 2, 2, 2⟩, ⟨"b", 1, none, 0, 0, 0⟩, ⟨"new", 2, some 0, 0, 0, 0⟩]
    [⟨"a", 0, some 2, 2, 2, 2⟩, ⟨"b", 1, none, 0, 0, 0⟩] ⟨"new", 2, some 0, 0, 0, 0⟩
    ⟨"d", some 1, 0, ⟨0,0,0,0,0,0⟩, 0, 1⟩ 1 0 (Err.nilReplicas "b") rfl rfl
    (by decide) (by decide) (by decide)⟩

theorem cleanupLoop_writes_le (mcc : Int) (l : List MachineSet) :
    ∀ total w, w ∈ (cleanupLoop mcc l total).writes → w.newCount ≤ w.oldCount := by
  induction l with
  | nil => intro total w hw; simp [cleanupLoop] at hw
  | cons ms rest ih =>
    intro total w hw
    rw [cleanupLoop] at hw
    rcases hms : ms.specReplicas with _ | r
    · simp only [hms] at hw
      simp at hw
    · simp only [hms] at hw
      by_cases h1 : mcc ≤ total
      · rw [if_pos h1] at hw; simp at hw
      · rw [if_neg h1] at hw
        by_cases h2 : r = 0
        · rw [if_pos h2] at hw
          by_cases he : (cleanupLoop mcc rest total).err.isSome
          · rw [if_pos he] at hw; exact ih total w hw
          · rw [if_neg he] at hw; exact ih total w hw
        · rw [if_neg h2] at hw
          by_cases h3 : r = ms.statusAvailableReplicas
          · rw [if_pos h3] at hw
            by_cases he : (cleanupLoop mcc rest total).err.isSome
            · rw [if_pos he] at hw; exact ih total w hw
            · rw [if_neg he] at hw; exact ih total w hw
          · rw [if_neg h3] at hw
            by_cases h4 : r < r - min (mcc - total) (r - ms.statusAvailableReplicas)
            · rw [if_pos h4] at hw; simp at hw
            · rw [if_neg h4] at hw
              have hw2 : w ∈ (scaleMachineSet ms
                  (r - min (mcc - total) (r - ms.statusAvailableReplicas))).2 ++
                  (cleanupLoop mcc rest
                    (total + min (mcc - total) (r - ms.statusAvailableReplicas))).writes := by
                split at hw <;> exact hw
              rcases List.mem_append.mp hw2 with h | h
              · simp only [scaleMachineSet, hms] at h
                by_cases heq : (some r : Option Int) =
                    some (r - min (mcc - total) (r - ms.statusAvailableReplicas))
                · rw [if_pos heq] at h; simp at h
                · rw [if_neg heq] at h
                  simp at h
                  subst h
                  simpa using not_lt.mp h4
              · exact ih _ w h

theorem scaleDownOldLoop_writes_le (q : Int) (l : List MachineSet) :
    ∀ total w, w ∈ (scaleDownOldLoop q l total).writes → w.newCount ≤ w.oldCount := by
  induction l with
  | nil => intro total w hw; simp [scaleDownOldLoop] at hw
  | cons ms rest ih =>
    intro total w hw
    rw [scaleDownOldLoop] at hw
    rcases hms : ms.specReplicas with _ | r
    · simp only [hms] at hw
      simp at hw
    · simp only [hms] at hw
      by_cases h1 : q ≤ total
      · rw [if_pos h1] at hw; simp at hw
      · rw [if_neg h1] at hw
        by_cases h2 : r = 0
        · rw [if_pos h2] at hw
          exact ih total w hw
        · rw [if_neg h2] at hw
          by_cases h4 : r < r - min r (q - total)
          · rw [if_pos h4] at hw; simp at hw
          · rw [if_neg h4] at hw
            rcases List.mem_append.mp hw with h | h
            · simp only [scaleMachineSet, hms] at h
              by_cases heq : (some r : Option Int) = some (r - min r (q - total))
              · rw [if_pos heq] at h; simp at h
              · rw [if_neg heq] at h
                simp at h
                subst h
                simpa using not_lt.mp h4
            · exact ih _ w h

theorem cleanupUnhealthyReplicas_writes_le (oldMSs : List MachineSet) (mcc : Int) :
    ∀ w ∈ (cleanupUnhealthyReplicas oldMSs mcc).writes, w.newCount ≤ w.oldCount := by
  intro w hw
  exact cleanupLoop_writes_le mcc (sortByCreation oldMSs) 0 w hw

theorem scaleDownOldMachineSets_writes_le (allMSs oldMSs : List MachineSet)
    (d : MachineDeployment) :
    ∀ w ∈ (scaleDownOldMachineSetsForRollingUpdate allMSs oldMSs d).writes,
      w.newCount ≤ w.oldCount := by
  intro w hw
  rw [scaleDownOldMachineSetsForRollingUpdate] at hw
  rcases hd : d.specReplicas with _ | dr
  · simp only [hd] at hw
    simp at hw
  · simp only [hd] at hw
    by_cases h1 : GetAvailableReplicaCountForMachineSets allMSs ≤ dr - MaxUnavailable d
    · rw [if_pos h1] at hw; simp at hw
    · rw [if_neg h1] at hw
      exact scaleDownOldLoop_writes_le _ _ 0 w hw

/-- C7: every replica count written to an old set by `reconcileOldMachineSets`
(in the unhealthy-cleanup phase or in the availability-gated phase) is at most
that set's desired replica count at the moment of the write, so a tick's
scale-down planning never increases `totalReplicas(oldSets)`. -/
theorem reconcileOldMachineSets_writes_monotone (allMSs oldMSs : List MachineSet)
    (newMS : MachineSet) (d : MachineDeployment) :
    ∀ w ∈ (reconcileOldMachineSets allMSs oldMSs newMS d).writes,
      w.newCount ≤ w.oldCount := by
  intro w hw
  rw [reconcileOldMachineSets] at hw
  rcases hd : d.specReplicas with _ | dr
  · simp only [hd] at hw
    simp at hw
  · rcases hn : newMS.specReplicas with _ | nr
    · simp only [hd, hn] at hw
      simp at hw
    · simp only [hd, hn] at hw
      by_cases h0 : GetReplicaCountForMachineSets oldMSs = 0
      · rw [if_pos h0] at hw; simp at hw
      · rw [if_neg h0] at hw
        by_cases hb : GetReplicaCountForMachineSets allMSs - (dr - MaxUnavailable d) -
            (nr - newMS.statusAvailableReplicas) ≤ 0
        · rw [if_pos hb] at hw; simp at hw
        · rw [if_neg hb] at hw
          rcases hce : (cleanupUnhealthyReplicas oldMSs
              (GetReplicaCountForMachineSets allMSs - (dr - MaxUnavailable d) -
                (nr - newMS.statusAvailableReplicas))).err with _ | e
          · simp only [hce] at hw
            rcases List.mem_append.mp hw with h | h
            · exact cleanupUnhealthyReplicas_writes_le _ _ w h
            · exact scaleDownOldMachineSets_writes_le _ _ _ w h
          · simp only [hce] at hw
            exact cleanupUnhealthyReplicas_writes_le _ _ w hw

/-- Witness for C7 at a concrete input producing writes in both scale-down
phases: the cleanup write 2 → 1 satisfies newCount ≤ oldCount. -/
theorem reconcileOldMachineSets_writes_monotone_instance :
    (⟨"a", 2, 1⟩ : ScaleWrite) ∈ (reconcileOldMachineSets
      [⟨"a", 0, some 2, 2, 2, 1⟩, ⟨"new", 1, some 0, 0, 0, 0⟩]
      [⟨"a", 0, some 2, 2, 2, 1⟩] ⟨"new", 1, some 0, 0, 0, 0⟩
      ⟨"d", some 1, 0, ⟨0,0,0,0,0,0⟩, 1, 1⟩).writes ∧ (1:Int) ≤ 2 :=
  ⟨by decide,
   reconcileOldMachineSets_writes_monotone
    [⟨"a", 0, some 2, 2, 2, 1⟩, ⟨"new", 1, some 0, 0, 0, 0⟩]
    [⟨"a", 0, some 2, 2, 2, 1⟩] ⟨"new", 1, some 0, 0, 0, 0⟩
    ⟨"d", some 1, 0, ⟨0,0,0,0,0,0⟩, 1, 1⟩ ⟨"a", 2, 1⟩ (by decide)⟩

theorem mem_insertByCreation (x ms : MachineSet) (l : List MachineSet) :
    ms ∈ insertByCreation x l ↔ ms = x ∨ ms ∈ l := by
  induction l with
  | nil => simp [insertByCreation]
  | cons y ys ih =>
    rw [insertByCreation]
    by_cases h : msBefore y x
    · rw [if_pos h]
      simp only [List.mem_cons, ih]
      tauto
    · rw [if_neg h]
      simp only [List.mem_cons]

theorem mem_sortByCreation (ms : MachineSet) (l : List MachineSet) :
    ms ∈ sortByCreation l ↔ ms ∈ l := by
  induction l with
  | nil => simp [sortByCreation]
  | cons x xs ih =>
    rw [sortByCreation, mem_insertByCreation]
    simp only [List.mem_cons, ih]

theorem scaleDownOldLoop_no_invalid (q : Int) : ∀ l : List MachineSet,
    (∀ ms ∈ l, ∀ r, ms.specReplicas = some r → 0 ≤ r) →
    ∀ total nm o n,
      (scaleDownOldLoop q l total).err ≠ some (Err.invalidScaleDown nm o n) := by
  intro l
  induction l with
  | nil => intro _ total nm o n; simp [scaleDownOldLoop]
  | cons ms rest ih =>
    intro hpos total nm o n h
    rw [scaleDownOldLoop] at h
    rcases hms : ms.specReplicas with _ | r
    · simp only [hms] at h
      simp at h
    · simp only [hms] at h
      by_cases h1 : q ≤ total
      · rw [if_pos h1] at h; simp at h
      · rw [if_neg h1] at h
        by_cases h2 : r = 0
        · rw [if_pos h2] at h
          exact ih (fun m hm => hpos m (List.mem_cons_of_mem _ hm)) total nm o n h
        · rw [if_neg h2] at h
          have hr : 0 ≤ r := hpos ms (List.mem_cons_self _ _) r hms
          set m := min r (q - total) with hm
          have hmin : 0 < m := lt_min (by omega) (by omega)
          have h4 : ¬ (r < r - m) := by omega
          rw [if_neg h4] at h
          exact ih (fun ms' hm' => hpos ms' (List.mem_cons_of_mem _ hm')) _ nm o n h

theorem cleanupLoop_no_invalid (mcc : Int) : ∀ l : List MachineSet,
    (∀ ms ∈ l, ∀ r, ms.specReplicas = some r → ms.statusAvailableReplicas ≤ r) →
    ∀ total nm o n,
      (cleanupLoop mcc l total).err ≠ some (Err.invalidScaleDown nm o n) := by
  intro l
  induction l with
  | nil => intro _ total nm o n; simp [cleanupLoop]
  | cons ms rest ih =>
    intro hav total nm o n h
    rw [cleanupLoop] at h
    rcases hms : ms.specReplicas with _ | r
    · simp only [hms] at h
      simp at h
    · simp only [hms] at h
      by_cases h1 : mcc ≤ total
      · rw [if_pos h1] at h; simp at h
      · rw [if_neg h1] at h
        by_cases h2 : r = 0
        · rw [if_pos h2] at h
          by_cases he : (cleanupLoop mcc rest total).err.isSome
          · rw [if_pos he] at h
            exact ih (fun m hm => hav m (List.mem_cons_of_mem _ hm)) total nm o n h
          · rw [if_neg he] at h
            exact ih (fun m hm => hav m (List.mem_cons_of_mem _ hm)) total nm o n h
        · rw [if_neg h2] at h
          by_cases h3 : r = ms.statusAvailableReplicas
          · rw [if_pos h3] at h
            by_cases he : (cleanupLoop mcc rest total).err.isSome
            · rw [if_pos he] at h
              exact ih (fun m hm => hav m (List.mem_cons_of_mem _ hm)) total nm o n h
            · rw [if_neg he] at h
              exact ih (fun m hm => hav m (List.mem_cons_of_mem _ hm)) total nm o n h
          · rw [if_neg h3] at h
            have hr : ms.statusAvailableReplicas ≤ r := hav ms (List.mem_cons_self _ _) r hms
            set m := min (mcc - total) (r - ms.statusAvailableReplicas) with hm
            have hmin : 0 < m := lt_min (by omega) (by omega)
            have h4 : ¬ (r < r - m) := by omega
            rw [if_neg h4] at h
            by_cases he : (cleanupLoop mcc rest (total + m)).err.isSome
            · rw [if_pos he] at h
              exact ih (fun m' hm' => hav m' (List.mem_cons_of_mem _ hm')) _ nm o n h
            · rw [if_neg he] at h
              exact ih (fun m' hm' => hav m' (List.mem_cons_of_mem _ hm')) _ nm o n h

/-- C10 (amended): the "invalid request to scale down" branch of
`scaleDownOldMachineSetsForRollingUpdate` is unreachable provided every old
set's non-nil desired replica count is non-negative, and the corresponding
branch of `cleanupUnhealthyReplicas` is unreachable provided every old set
satisfies `status.availableReplicas ≤ spec.replicas`. -/
theorem invalidScaleDown_unreachable :
    (∀ (allMSs oldMSs : List MachineSet) (d : MachineDeployment),
      (∀ ms ∈ oldMSs, ∀ r, ms.specReplicas = some r → 0 ≤ r) →
      ∀ nm o n, (scaleDownOldMachineSetsForRollingUpdate allMSs oldMSs d).err ≠
        some (Err.invalidScaleDown nm o n)) ∧
    (∀ (oldMSs : List MachineSet) (mcc : Int),
      (∀ ms ∈ oldMSs, ∀ r, ms.specReplicas = some r → ms.statusAvailableReplicas ≤ r) →
      ∀ nm o n, (cleanupUnhealthyReplicas oldMSs mcc).err ≠
        some (Err.invalidScaleDown nm o n)) := by
  constructor
  · intro allMSs oldMSs d hpos nm o n h
    rw [scaleDownOldMachineSetsForRollingUpdate] at h
    rcases hd : d.specReplicas with _ | dr
    · simp only [hd] at h
      simp at h
    · simp only [hd] at h
      by_cases h1 : GetAvailableReplicaCountForMachineSets allMSs ≤ dr - MaxUnavailable d
      · rw [if_pos h1] at h; simp at h
      · rw [if_neg h1] at h
        exact scaleDownOldLoop_no_invalid _ (sortByCreation oldMSs)
          (fun ms hm => hpos ms ((mem_sortByCreation ms oldMSs).mp hm)) 0 nm o n h
  · intro oldMSs mcc hav nm o n h
    exact cleanupLoop_no_invalid mcc (sortByCreation oldMSs)
      (fun ms hm => hav ms ((mem_sortByCreation ms oldMSs).mp hm)) 0 nm o n h

/-- Counterexample to C10 as stated: the fatal branch of
`scaleDownOldMachineSetsForRollingUpdate` is reachable — an old set with a
negative desired replica count (spec.replicas = −1) makes the loop compute a
new count of 0 > −1 and return the "invalid request to scale down" error. -/
theorem invalidScaleDown_reachable_cex :
    (scaleDownOldMachineSetsForRollingUpdate
      [⟨"avail", 0, some 0, 5, 5, 5⟩] [⟨"neg", 0, some (-1), 0, 0, 0⟩]
      ⟨"d", some 0, 0, ⟨0,0,0,0,0,0⟩, 0, 1⟩).err =
      some (Err.invalidScaleDown "neg" (-1) 0) := by decide

/-- Witness for C10 (amended) at concrete inputs with healthy,
non-negative old sets: neither phase reports the fatal error. -/
theorem invalidScaleDown_unreachable_instance :
    (scaleDownOldMachineSetsForRollingUpdate [⟨"a", 0, some 2, 2, 2, 2⟩]
      [⟨"a", 0, some 2, 2, 2, 2⟩] ⟨"d", some 1, 0, ⟨0,0,0,0,0,0⟩, 0, 1⟩).err ≠
      some (Err.invalidScaleDown "a" 2 1) ∧
    (cleanupUnhealthyReplicas [⟨"b", 0, some 3, 3, 3, 1⟩] 2).err ≠
      some (Err.invalidScaleDown "b" 3 1) :=
  ⟨invalidScaleDown_unreachable.1 [⟨"a", 0, some 2, 2, 2, 2⟩] [⟨"a", 0, some 2, 2, 2, 2⟩]
    ⟨"d", some 1, 0, ⟨0,0,0,0,0,0⟩, 0, 1⟩
    (by intro ms hm r hr; rw [List.mem_singleton] at hm; subst hm; simp at hr ⊢; omega)
    "a" 2 1,
   invalidScaleDown_unreachable.2 [⟨"b", 0, some 3, 3, 3, 1⟩] 2
    (by intro ms hm r hr; rw [List.mem_singleton] at hm; subst hm; simp at hr ⊢; omega)
    "b" 3 1⟩

theorem msUpdate_self (ms : MachineSet) (v : Int) (h : ms.specReplicas = some v) :
    { ms with specReplicas := some v } = ms := by
  cases ms
  simp only [MachineSet.mk.injEq, and_true, true_and]
  simp at h
  simp [h]

theorem replicaCount_insertByCreation (x : MachineSet) (l : List MachineSet) :
    GetReplicaCountForMachineSets (insertByCreation x l) =
      x.specReplicas.getD 0 + GetReplicaCountForMachineSets l := by
  induction l with
  | nil => simp [insertByCreation, GetReplicaCountForMachineSets]
  | cons y ys ih =>
    rw [insertByCreation]
    by_cases h : msBefore y x
    · rw [if_pos h]
      simp only [GetReplicaCountForMachineSets, List.map_cons, List.sum_cons] at ih ⊢
      omega
    · rw [if_neg h]
      simp [GetReplicaCountForMachineSets]

theorem replicaCount_sortByCreation (l : List MachineSet) :
    GetReplicaCountForMachineSets (sortByCreation l) = GetReplicaCountForMachineSets l := by
  induction l with
  | nil => simp [sortByCreation]
  | cons x xs ih =>
    rw [sortByCreation, replicaCount_insertByCreation, ih]
    simp [GetReplicaCountForMachineSets]

theorem specScaleDownLoop_count : ∀ (l : List MachineSet) (q : Int),
    (specScaleDownLoop q l).1 =
      GetReplicaCountForMachineSets l -
        GetReplicaCountForMachineSets (specScaleDownLoop q l).2 := by
  intro l
  induction l with
  | nil => intro q; simp [specScaleDownLoop, GetReplicaCountForMachineSets]
  | cons ms rest ih =>
    intro q
    rw [specScaleDownLoop]
    by_cases h1 : q ≤ 0
    · rw [if_pos h1]
      simp [GetReplicaCountForMachineSets]
    · rw [if_neg h1]
      by_cases h2 : 0 < ms.specReplicas.getD 0
      · rw [if_pos h2]
        have h := ih (q - min (ms.specReplicas.getD 0) q)
        simp only [GetReplicaCountForMachineSets, List.map_cons, List.sum_cons,
          Option.getD_some] at h ⊢
        omega
      · rw [if_neg h2]
        have h := ih q
        simp only [GetReplicaCountForMachineSets, List.map_cons, List.sum_cons] at h ⊢
        omega

theorem specCleanupLoop_count : ∀ (l : List MachineSet) (b : Int),
    (specCleanupLoop b l).1 =
      GetReplicaCountForMachineSets l -
        GetReplicaCountForMachineSets (specCleanupLoop b l).2 := by
  intro l
  induction l with
  | nil => intro b; simp [specCleanupLoop, GetReplicaCountForMachineSets]
  | cons ms rest ih =>
    intro b
    rw [specCleanupLoop]
    by_cases h1 : ms.statusAvailableReplicas < ms.specReplicas.getD 0 ∧ 0 < ms.specReplicas.getD 0
    · rw [if_pos h1]
      have h := ih (b - min b (ms.specReplicas.getD 0 - ms.statusAvailableReplicas))
      simp only [GetReplicaCountForMachineSets, List.map_cons, List.sum_cons,
        Option.getD_some] at h ⊢
      omega
    · rw [if_neg h1]
      have h := ih b
      simp only [GetReplicaCountForMachineSets, List.map_cons, List.sum_cons] at h ⊢
      omega

theorem specCleanupLoop_zero : ∀ l : List MachineSet, specCleanupLoop 0 l = (0, l) := by
  intro l
  induction l with
  | nil => rfl
  | cons ms rest ih =>
    rw [specCleanupLoop]
    by_cases h1 : ms.statusAvailableReplicas < ms.specReplicas.getD 0 ∧ 0 < ms.specReplicas.getD 0
    · rw [if_pos h1]
      rcases hms : ms.specReplicas with _ | v
      · exfalso
        rw [hms] at h1
        simp at h1
      · rw [hms] at h1
        simp only [Option.getD_some] at h1 ⊢
        have hdelta : min (0:Int) (v - ms.statusAvailableReplicas) = 0 :=
          min_eq_left (by omega)
        rw [hdelta]
        simp only [sub_zero, zero_add]
        rw [ih, msUpdate_self ms v hms]
    · rw [if_neg h1]
      rw [ih]

theorem scaleDownOldLoop_spec_aux : ∀ (l : List MachineSet) (q total : Int),
    (∀ ms ∈ l, ∃ v, ms.specReplicas = some v ∧ 0 ≤ v) →
    (scaleDownOldLoop q l total).err = none ∧
    (scaleDownOldLoop q l total).sets = (specScaleDownLoop (q - total) l).2 ∧
    (scaleDownOldLoop q l total).count = total + (specScaleDownLoop (q - total) l).1 := by
  intro l
  induction l with
  | nil =>
    intro q total _
    simp [scaleDownOldLoop, specScaleDownLoop]
  | cons ms rest ih =>
    intro q total hw
    obtain ⟨r, hms, hr⟩ := hw ms (List.mem_cons_self _ _)
    have hwrest : ∀ m ∈ rest, ∃ v, m.specReplicas = some v ∧ 0 ≤ v :=
      fun m hm => hw m (List.mem_cons_of_mem _ hm)
    rw [scaleDownOldLoop, specScaleDownLoop]
    simp only [hms, Option.getD_some]
    by_cases h1 : q ≤ total
    · rw [if_pos h1, if_pos (show q - total ≤ 0 by omega)]
      simp
    · rw [if_neg h1, if_neg (show ¬ q - total ≤ 0 by omega)]
      by_cases h2 : r = 0
      · rw [if_pos h2, if_neg (show ¬ (0:Int) < r by omega)]
        obtain ⟨he, hs, hc⟩ := ih q total hwrest
        exact ⟨by simpa using he, by simp [hs], by simpa using hc⟩
      · rw [if_neg h2, if_pos (show (0:Int) < r by omega)]
        set m := min r (q - total) with hmdef
        have hmin : 0 < m := lt_min (by omega) (by omega)
        rw [if_neg (show ¬ r < r - m by omega)]
        have hne : ¬ (ms.specReplicas = some (r - m)) := by
          rw [hms]
          simp
          omega
        obtain ⟨he, hs, hc⟩ := ih q (total + m) hwrest
        have hq : q - total - m = q - (total + m) := by omega
        refine ⟨by simpa using he, ?_, ?_⟩
        · simp only [scaleMachineSet, if_neg hne]
          rw [hq, hs]
        · simp only []
          rw [hc, hq]
          omega

theorem cleanupLoop_spec_aux : ∀ (l : List MachineSet) (mcc total : Int),
    total ≤ mcc →
    (∀ ms ∈ l, ∃ v, ms.specReplicas = some v ∧ 0 ≤ v ∧ ms.statusAvailableReplicas ≤ v) →
    (cleanupLoop mcc l total).err = none ∧
    (cleanupLoop mcc l total).sets = (specCleanupLoop (mcc - total) l).2 ∧
    (cleanupLoop mcc l total).count = total + (specCleanupLoop (mcc - total) l).1 := by
  intro l
  induction l with
  | nil =>
    intro mcc total _ _
    simp [cleanupLoop, specCleanupLoop]
  | cons ms rest ih =>
    intro mcc total hle hw
    obtain ⟨r, hms, hr0, hrav⟩ := hw ms (List.mem_cons_self _ _)
    have hwrest : ∀ m ∈ rest, ∃ v, m.specReplicas = some v ∧ 0 ≤ v ∧
        m.statusAvailableReplicas ≤ v :=
      fun m hm => hw m (List.mem_cons_of_mem _ hm)
    rw [cleanupLoop]
    simp only [hms]
    by_cases h1 : mcc ≤ total
    · rw [if_pos h1]
      have h0 : mcc - total = 0 := by omega
      rw [h0, specCleanupLoop_zero]
      simp
    · rw [if_neg h1]
      by_cases h2 : r = 0
      · rw [if_pos h2]
        have hcond : ¬ (ms.statusAvailableReplicas < ms.specReplicas.getD 0 ∧
            0 < ms.specReplicas.getD 0) := by
          rw [hms]
          simp
          omega
        rw [specCleanupLoop, if_neg hcond]
        obtain ⟨he, hs, hc⟩ := ih mcc total (by omega) hwrest
        rw [if_neg (show ¬ (cleanupLoop mcc rest total).err.isSome = true by simp [he])]
        exact ⟨by simpa using he, by simp [hs], by simpa using hc⟩
      · rw [if_neg h2]
        by_cases h3 : r = ms.statusAvailableReplicas
        · rw [if_pos h3]
          have hcond : ¬ (ms.statusAvailableReplicas < ms.specReplicas.getD 0 ∧
              0 < ms.specReplicas.getD 0) := by
            rw [hms]
            simp
            omega
          rw [specCleanupLoop, if_neg hcond]
          obtain ⟨he, hs, hc⟩ := ih mcc total (by omega) hwrest
          rw [if_neg (show ¬ (cleanupLoop mcc rest total).err.isSome = true by simp [he])]
          exact ⟨by simpa using he, by simp [hs], by simpa using hc⟩
        · rw [if_neg h3]
          have hcond : ms.statusAvailableReplicas < ms.specReplicas.getD 0 ∧
              0 < ms.specReplicas.getD 0 := by
            rw [hms]
            simp only [Option.getD_some]
            omega
          rw [specCleanupLoop, if_pos hcond]
          simp only [hms, Option.getD_some]
          set m := min (mcc - total) (r - ms.statusAvailableReplicas) with hmdef
          have hmin : 0 < m := lt_min (by omega) (by omega)
          rw [if_neg (show ¬ r < r - m by omega)]
          have hne : ¬ (ms.specReplicas = some (r - m)) := by
            rw [hms]
            simp
            omega
          have hle2 : total + m ≤ mcc := by
            have := min_le_left (mcc - total) (r - ms.statusAvailableReplicas)
            omega
          obtain ⟨he, hs, hc⟩ := ih mcc (total + m) hle2 hwrest
          have hq : mcc - total - m = mcc - (total + m) := by omega
          rw [if_neg (show ¬ (cleanupLoop mcc rest (total + m)).err.isSome = true by simp [he])]
          refine ⟨by simpa using he, ?_, ?_⟩
          · simp only [scaleMachineSet, if_neg hne]
            rw [hq, hs]
          · simp only []
            rw [hc, hq]
            omega

/-- C3 (amended): `scaleDownOldMachineSetsForRollingUpdate` performs no
scale-down when `totalAvailable(allSets) ≤ d.replicas − maxUnavailable`;
otherwise — provided every old set has a non-nil, non-negative desired
replica count — it behaves exactly as the claim's quota loop over the old
sets in ascending creation order (`specScaleDownLoop`), and the returned
count equals the total reduction applied to the old sets. -/
theorem scaleDownOldMachineSets_spec (allMSs oldMSs : List MachineSet) (d : MachineDeployment)
    (dReplicas : Int) (hd : d.specReplicas = some dReplicas) :
    (GetAvailableReplicaCountForMachineSets allMSs ≤ dReplicas - MaxUnavailable d →
      scaleDownOldMachineSetsForRollingUpdate allMSs oldMSs d = ⟨oldMSs, 0, [], none⟩) ∧
    ((∀ ms ∈ oldMSs, ∃ v, ms.specReplicas = some v ∧ 0 ≤ v) →
      dReplicas - MaxUnavailable d < GetAvailableReplicaCountForMachineSets allMSs →
      (scaleDownOldMachineSetsForRollingUpdate allMSs oldMSs d).err = none ∧
      (scaleDownOldMachineSetsForRollingUpdate allMSs oldMSs d).sets =
        (specScaleDownLoop
          (GetAvailableReplicaCountForMachineSets allMSs - (dReplicas - MaxUnavailable d))
          (sortByCreation oldMSs)).2 ∧
      (scaleDownOldMachineSetsForRollingUpdate allMSs oldMSs d).count =
        (specScaleDownLoop
          (GetAvailableReplicaCountForMachineSets allMSs - (dReplicas - MaxUnavailable d))
          (sortByCreation oldMSs)).1 ∧
      (scaleDownOldMachineSetsForRollingUpdate allMSs oldMSs d).count =
        GetReplicaCountForMachineSets oldMSs -
          GetReplicaCountForMachineSets
            (scaleDownOldMachineSetsForRollingUpdate allMSs oldMSs d).sets) := by
  constructor
  · intro h1
    rw [scaleDownOldMachineSetsForRollingUpdate]
    simp only [hd]
    rw [if_pos h1]
  · intro hw h1
    rw [scaleDownOldMachineSetsForRollingUpdate]
    simp only [hd]
    rw [if_neg (not_le.mpr h1)]
    obtain ⟨he, hs, hc⟩ := scaleDownOldLoop_spec_aux (sortByCreation oldMSs)
      (GetAvailableReplicaCountForMachineSets allMSs - (dReplicas - MaxUnavailable d)) 0
      (fun ms hm => hw ms ((mem_sortByCreation ms oldMSs).mp hm))
    rw [sub_zero] at hs hc
    refine ⟨he, hs, by simpa using hc, ?_⟩
    rw [hc, hs]
    have h4 := specScaleDownLoop_count (sortByCreation oldMSs)
      (GetAvailableReplicaCountForMachineSets allMSs - (dReplicas - MaxUnavailable d))
    rw [replicaCount_sortByCreation] at h4
    omega

/-- Counterexample to C3 as stated: with an old set "b" carrying
spec.replicas = −1 followed by an old set "c" with spec.replicas = 3, the
code aborts with the fatal scale-down error and leaves "c" at 3 replicas,
whereas the claim's loop (every old set with spec.replicas > 0 is reduced by
min(spec, quota)) would scale "c" down to 0. -/
theorem scaleDownOldMachineSets_claim_cex :
    (scaleDownOldMachineSetsForRollingUpdate
      [⟨"e", 0, some 0, 5, 5, 5⟩]
      [⟨"b", 0, some (-1), 0, 0, 0⟩, ⟨"c", 1, some 3, 3, 3, 3⟩]
      ⟨"d", some 0, 0, ⟨0,0,0,0,0,0⟩, 0, 1⟩).err = some (Err.invalidScaleDown "b" (-1) 0) ∧
    (scaleDownOldMachineSetsForRollingUpdate
      [⟨"e", 0, some 0, 5, 5, 5⟩]
      [⟨"b", 0, some (-1), 0, 0, 0⟩, ⟨"c", 1, some 3, 3, 3, 3⟩]
      ⟨"d", some 0, 0, ⟨0,0,0,0,0,0⟩, 0, 1⟩).sets =
      [⟨"b", 0, some (-1), 0, 0, 0⟩, ⟨"c", 1, some 3, 3, 3, 3⟩] ∧
    (specScaleDownLoop 5 (sortByCreation
      [⟨"b", 0, some (-1), 0, 0, 0⟩, ⟨"c", 1, some 3, 3, 3, 3⟩])).2 =
      [⟨"b", 0, some (-1), 0, 0, 0⟩, ⟨"c", 1, some 0, 3, 3, 3⟩] := by decide

/-- Witness for C3 (amended) at a concrete input: quota 5, one old set at 2
replicas, scaled down to 0 with returned count equal to the reduction. -/
theorem scaleDownOldMachineSets_spec_instance :
    (scaleDownOldMachineSetsForRollingUpdate [⟨"e", 0, some 0, 5, 5, 5⟩]
      [⟨"a", 0, some 2, 2, 2, 2⟩] ⟨"d", some 0, 0, ⟨0,0,0,0,0,0⟩, 0, 1⟩).err = none ∧
    (scaleDownOldMachineSetsForRollingUpdate [⟨"e", 0, some 0, 5, 5, 5⟩]
      [⟨"a", 0, some 2, 2, 2, 2⟩] ⟨"d", some 0, 0, ⟨0,0,0,0,0,0⟩, 0, 1⟩).sets =
      (specScaleDownLoop
        (GetAvailableReplicaCountForMachineSets [⟨"e", 0, some 0, 5, 5, 5⟩] -
          ((0:Int) - MaxUnavailable ⟨"d", some 0, 0, ⟨0,0,0,0,0,0⟩, 0, 1⟩))
        (sortByCreation [⟨"a", 0, some 2, 2, 2, 2⟩])).2 ∧
    (scaleDownOldMachineSetsForRollingUpdate [⟨"e", 0, some 0, 5, 5, 5⟩]
      [⟨"a", 0, some 2, 2, 2, 2⟩] ⟨"d", some 0, 0, ⟨0,0,0,0,0,0⟩, 0, 1⟩).count =
      (specScaleDownLoop
        (GetAvailableReplicaCountForMachineSets [⟨"e", 0, some 0, 5, 5, 5⟩] -
          ((0:Int) - MaxUnavailable ⟨"d", some 0, 0, ⟨0,0,0,0,0,0⟩, 0, 1⟩))
        (sortByCreation [⟨"a", 0, some 2, 2, 2, 2⟩])).1 ∧
    (scaleDownOldMachineSetsForRollingUpdate [⟨"e", 0, some 0, 5, 5, 5⟩]
      [⟨"a", 0, some 2, 2, 2, 2⟩] ⟨"d", some 0, 0, ⟨0,0,0,0,0,0⟩, 0, 1⟩).count =
      GetReplicaCountForMachineSets [⟨"a", 0, some 2, 2, 2, 2⟩] -
        GetReplicaCountForMachineSets
          (scaleDownOldMachineSetsForRollingUpdate [⟨"e", 0, some 0, 5, 5, 5⟩]
            [⟨"a", 0, some 2, 2, 2, 2⟩] ⟨"d", some 0, 0, ⟨0,0,0,0,0,0⟩, 0, 1⟩).sets :=
  (scaleDownOldMachineSets_spec [⟨"e", 0, some 0, 5, 5, 5⟩] [⟨"a", 0, some 2, 2, 2, 2⟩]
    ⟨"d", some 0, 0, ⟨0,0,0,0,0,0⟩, 0, 1⟩ 0 rfl).2
    (by
      intro ms hm
      rw [List.mem_singleton] at hm
      subst hm
      exact ⟨2, rfl, by norm_num⟩)
    (by decide)

/-- C4 (amended): given a non-negative budget and old sets whose desired
replica counts are non-nil, non-negative and at least their available
counts, `cleanupUnhealthyReplicas` behaves exactly as the claim's budget
loop over the old sets in ascending creation order (`specCleanupLoop`):
each old set with spec.replicas > status.availableReplicas and
spec.replicas > 0 is reduced by min(remaining budget, spec −
available), the others are skipped, and the returned count is the total
amount cleaned. -/
theorem cleanupUnhealthyReplicas_spec (oldMSs : List MachineSet) (mcc : Int)
    (hmcc : 0 ≤ mcc)
    (hw : ∀ ms ∈ oldMSs, ∃ v, ms.specReplicas = some v ∧ 0 ≤ v ∧
      ms.statusAvailableReplicas ≤ v) :
    (cleanupUnhealthyReplicas oldMSs mcc).err = none ∧
    (cleanupUnhealthyReplicas oldMSs mcc).sets =
      (specCleanupLoop mcc (sortByCreation oldMSs)).2 ∧
    (cleanupUnhealthyReplicas oldMSs mcc).count =
      (specCleanupLoop mcc (sortByCreation oldMSs)).1 ∧
    (cleanupUnhealthyReplicas oldMSs mcc).count =
      GetReplicaCountForMachineSets oldMSs -
        GetReplicaCountForMachineSets (cleanupUnhealthyReplicas oldMSs mcc).sets := by
  obtain ⟨he, hs, hc⟩ := cleanupLoop_spec_aux (sortByCreation oldMSs) mcc 0 hmcc
    (fun ms hm => hw ms ((mem_sortByCreation ms oldMSs).mp hm))
  rw [sub_zero] at hs hc
  rw [cleanupUnhealthyReplicas]
  refine ⟨he, hs, by simpa using hc, ?_⟩
  rw [hc, hs]
  have h4 := specCleanupLoop_count (sortByCreation oldMSs) mcc
  rw [replicaCount_sortByCreation] at h4
  omega

/-- Counterexample to C4 as stated: an old set "a" with spec.replicas = 1 <
status.availableReplicas = 2 is neither reducible nor one of the claim's two
skip cases; the code returns the fatal scale-down error with a nil set list,
whereas the claim's loop would leave the set untouched and return 0 cleaned
without error. -/
theorem cleanupUnhealthyReplicas_claim_cex :
    (cleanupUnhealthyReplicas [⟨"a", 0, some 1, 1, 1, 2⟩] 5).err =
      some (Err.invalidScaleDown "a" 1 2) ∧
    (cleanupUnhealthyReplicas [⟨"a", 0, some 1, 1, 1, 2⟩] 5).sets = [] ∧
    (specCleanupLoop 5 (sortByCreation [⟨"a", 0, some 1, 1, 1, 2⟩])).2 =
      [⟨"a", 0, some 1, 1, 1, 2⟩] := by decide

/-- Witness for C4 (amended) at a concrete input: budget 1, an unhealthy old
set (3 desired, 1 available) reduced by 1 and a healthy one skipped. -/
theorem cleanupUnhealthyReplicas_spec_instance :
    (cleanupUnhealthyReplicas [⟨"a", 0, some 3, 3, 3, 1⟩, ⟨"b", 1, some 2, 2, 2, 2⟩] 1).err =
      none ∧
    (cleanupUnhealthyReplicas [⟨"a", 0, some 3, 3, 3, 1⟩, ⟨"b", 1, some 2, 2, 2, 2⟩] 1).sets =
      (specCleanupLoop 1 (sortByCreation
        [⟨"a", 0, some 3, 3, 3, 1⟩, ⟨"b", 1, some 2, 2, 2, 2⟩])).2 ∧
    (cleanupUnhealthyReplicas [⟨"a", 0, some 3, 3, 3, 1⟩, ⟨"b", 1, some 2, 2, 2, 2⟩] 1).count =
      (specCleanupLoop 1 (sortByCreation
        [⟨"a", 0, some 3, 3, 3, 1⟩, ⟨"b", 1, some 2, 2, 2, 2⟩])).1 ∧
    (cleanupUnhealthyReplicas [⟨"a", 0, some 3, 3, 3, 1⟩, ⟨"b", 1, some 2, 2, 2, 2⟩] 1).count =
      GetReplicaCountForMachineSets [⟨"a", 0, some 3, 3, 3, 1⟩, ⟨"b", 1, some 2, 2, 2, 2⟩] -
        GetReplicaCountForMachineSets
          (cleanupUnhealthyReplicas
            [⟨"a", 0, some 3, 3, 3, 1⟩, ⟨"b", 1, some 2, 2, 2, 2⟩] 1).sets :=
  cleanupUnhealthyReplicas_spec [⟨"a", 0, some 3, 3, 3, 1⟩, ⟨"b", 1, some 2, 2, 2, 2⟩] 1
    (by norm_num)
    (by
      intro ms hm
      simp only [List.mem_cons, List.not_mem_nil, or_false] at hm
      rcases hm with h | h <;> subst h
      · exact ⟨3, rfl, by norm_num⟩
      · exact ⟨2, rfl, by norm_num⟩)

theorem noCheckAfterWrite_scaleWritesOnly (ws : List ScaleWrite) :
    noCheckAfterWrite (ws.map TickEvent.scaleWrite) = true := by
  induction ws with
  | nil => rfl
  | cons w ws ih => simpa [noCheckAfterWrite] using ih

theorem noCheckAfterWrite_scaleWrites (ws : List ScaleWrite) (rest : List TickEvent) :
    noCheckAfterWrite (ws.map TickEvent.scaleWrite ++ rest) = noCheckAfterWrite rest := by
  induction ws with
  | nil => rfl
  | cons w ws ih => simpa [noCheckAfterWrite] using ih

theorem completeCheck_not_mem_scaleWrites (st : MachineDeploymentStatus) (b : Bool)
    (ws : List ScaleWrite) :
    TickEvent.completeCheck st b ∉ ws.map TickEvent.scaleWrite := by
  simp [List.mem_map]

/-- C2 (amended): in every tick of `rolloutRolling`, no `DeploymentComplete`
check occurs after the status write, and every `DeploymentComplete` check
reads the deployment status as of entry to the tick (the previous tick's
aggregate), not the status aggregated by `ensureStatus` later in the same
tick. -/
theorem rolloutRolling_completeCheck_entry_status (d : MachineDeployment)
    (newMS0 : MachineSet) (oldMSs0 : List MachineSet) :
    noCheckAfterWrite (rolloutRollingFrom d newMS0 oldMSs0).events = true ∧
    (∀ st b, TickEvent.completeCheck st b ∈ (rolloutRollingFrom d newMS0 oldMSs0).events →
      st = d.status ∧ b = DeploymentComplete d d.status) := by
  simp only [rolloutRollingFrom]
  rcases h1 : (reconcileNewMachineSet (oldMSs0 ++ [newMS0]) newMS0 d).err with _ | e1
  · rcases h2 : (reconcileOldMachineSets (oldMSs0 ++ [newMS0]) oldMSs0
        (reconcileNewMachineSet (oldMSs0 ++ [newMS0]) newMS0 d).newMS d).err with _ | e2
    · rcases h3 : ensureStatus d (reconcileNewMachineSet (oldMSs0 ++ [newMS0]) newMS0 d).newMS
          (reconcileOldMachineSets (oldMSs0 ++ [newMS0]) oldMSs0
            (reconcileNewMachineSet (oldMSs0 ++ [newMS0]) newMS0 d).newMS d).sets with _ | p
      · constructor
        · cases hcp : DeploymentComplete d d.status
          · simp [List.append_assoc, noCheckAfterWrite_scaleWrites, hcp, noCheckAfterWrite]
          · simp [List.append_assoc, noCheckAfterWrite_scaleWrites, hcp, noCheckAfterWrite]
        · intro st b hmem
          cases hcp : DeploymentComplete d d.status
          · rw [hcp] at hmem
            simp [List.mem_append, List.mem_map] at hmem
            exact ⟨hmem.1, hmem.2⟩
          · rw [hcp] at hmem
            simp [List.mem_append, List.mem_map] at hmem
            exact ⟨hmem.1, hmem.2⟩
      · constructor
        · cases hcp : DeploymentComplete d d.status <;> cases hwr : p.2 <;>
            simp [List.append_assoc, noCheckAfterWrite_scaleWrites, hcp, hwr,
              noCheckAfterWrite, isCompleteCheck]
        · intro st b hmem
          cases hcp : DeploymentComplete d d.status <;> rw [hcp] at hmem <;>
            cases hwr : p.2 <;>
            simp [hwr, List.mem_append, List.mem_map] at hmem <;>
            exact ⟨hmem.1, hmem.2⟩
    · constructor
      · rw [noCheckAfterWrite_scaleWrites]
        exact noCheckAfterWrite_scaleWritesOnly _
      · intro st b hmem
        rcases List.mem_append.mp hmem with h | h
        · exact absurd h (completeCheck_not_mem_scaleWrites st b _)
        · exact absurd h (completeCheck_not_mem_scaleWrites st b _)
  · constructor
    · exact noCheckAfterWrite_scaleWritesOnly _
    · intro st b hmem
      exact absurd hmem (completeCheck_not_mem_scaleWrites st b _)

/-- Counterexample to C2 as stated: a concrete tick whose event trace runs
the `DeploymentComplete` check (reading the all-zero entry status) before the
status write, and the status it reads differs from the status aggregated and
written in the same tick — so the check does not read the step-5 aggregate. -/
theorem rolloutRolling_status_order_cex :
    (rolloutRollingFrom ⟨"d", some 1, 0, ⟨0,0,0,0,0,0⟩, 0, 1⟩
      ⟨"n", 0, some 1, 1, 1, 1⟩ []).events =
      [TickEvent.completeCheck ⟨0,0,0,0,0,0⟩ false,
       TickEvent.statusWrite ⟨0,1,1,1,1,0⟩] ∧
    (⟨0,0,0,0,0,0⟩ : MachineDeploymentStatus) ≠ ⟨0,1,1,1,1,0⟩ := by decide

/-- Witness for C2 (amended) at a concrete input: the tick's check event
carries the entry status and the entry-status completeness verdict. -/
theorem rolloutRolling_completeCheck_entry_status_instance :
    noCheckAfterWrite (rolloutRollingFrom ⟨"d", some 1, 0, ⟨0,0,0,0,0,0⟩, 0, 1⟩
      ⟨"n", 0, some 1, 1, 1, 1⟩ []).events = true ∧
    ((⟨0,0,0,0,0,0⟩ : MachineDeploymentStatus) =
      (⟨"d", some 1, 0, ⟨0,0,0,0,0,0⟩, 0, 1⟩ : MachineDeployment).status ∧
      false = DeploymentComplete ⟨"d", some 1, 0, ⟨0,0,0,0,0,0⟩, 0, 1⟩
        (⟨"d", some 1, 0, ⟨0,0,0,0,0,0⟩, 0, 1⟩ : MachineDeployment).status) :=
  ⟨(rolloutRolling_completeCheck_entry_status ⟨"d", some 1, 0, ⟨0,0,0,0,0,0⟩, 0, 1⟩
      ⟨"n", 0, some 1, 1, 1, 1⟩ []).1,
   (rolloutRolling_completeCheck_entry_status ⟨"d", some 1, 0, ⟨0,0,0,0,0,0⟩, 0, 1⟩
      ⟨"n", 0, some 1, 1, 1, 1⟩ []).2 ⟨0,0,0,0,0,0⟩ false (by decide)⟩

theorem getIntOrPercent_roundUp (s : IntOrString) :
    getIntOrPercent s true = getIntOrPercent s false := by
  rcases s with i | str
  · rfl
  · simp only [getIntOrPercent, GetValueFromIntOrPercent]
    rcases h : getIntOrPercentValue (IntOrString.strVal str) with e | vp
    · rfl
    · obtain ⟨v, ip⟩ := vp
      cases ip
      · rfl
      · have h1 : (v * 100) / 100 = v := Int.mul_ediv_cancel v (by norm_num)
        have h2 : (-(v * 100)) / 100 = -v := by
          rw [show -(v * 100) = (-v) * 100 by ring]
          exact Int.mul_ediv_cancel (-v) (by norm_num)
        simp [ceilDiv100, floorDiv100, h1, h2]

theorem validatePositive_ne_nil (s : IntOrString) :
    ValidatePositiveIntOrPercent s ≠ [] ↔
      ((∃ e, getIntOrPercent s false = Except.error e) ∨
       (∃ x, getIntOrPercent s false = Except.ok x ∧ x < 0)) := by
  rcases h : getIntOrPercent s false with e | x
  · simp [ValidatePositiveIntOrPercent, h]
  · simp only [ValidatePositiveIntOrPercent, h]
    by_cases hx : x < 0 <;> simp [hx]

theorem split_ne_nil (a b : List VErr) :
    a ++ b ≠ [] ↔ a ≠ [] ∨ b ≠ [] := by
  rcases a with _ | ⟨x, a⟩ <;> rcases b with _ | ⟨y, b⟩ <;> simp

/-- C9 (amended): `ValidateMachineRollingUpdateDeployment` returns at least
one error exactly when: a present value fails to resolve (all `%` characters
are deleted and the remainder must parse as an optionally-signed decimal
integer — so a digit string without `%`, such as "50", is accepted and
treated as a percentage) or resolves to a negative value; or `maxUnavailable`
is a string of the exact form `N%` resolving to more than 100; or both
values are present and resolve to zero (resolution failures resolving to 0).
It returns no error otherwise. -/
theorem validateRollingUpdate_error_characterization (ru : MachineRollingUpdateDeployment) :
    ValidateMachineRollingUpdateDeployment ru ≠ [] ↔
      ((∃ u, ru.maxUnavailable = some u ∧
        ((∃ e, getIntOrPercent u false = Except.error e) ∨
         (∃ x, getIntOrPercent u false = Except.ok x ∧ x < 0) ∨
         (isValidPercent (strValOf u) = true ∧ 100 < getIntOrPercentD u false))) ∨
       (∃ v, ru.maxSurge = some v ∧
        ((∃ e, getIntOrPercent v false = Except.error e) ∨
         (∃ x, getIntOrPercent v false = Except.ok x ∧ x < 0))) ∨
       (∃ u v, ru.maxUnavailable = some u ∧ ru.maxSurge = some v ∧
         getIntOrPercentD u false = 0 ∧ getIntOrPercentD v true = 0)) := by
  obtain ⟨mu, msu⟩ := ru
  rcases mu with _ | u <;> rcases msu with _ | v
  · simp [ValidateMachineRollingUpdateDeployment]
  · simp only [ValidateMachineRollingUpdateDeployment]
    rw [List.nil_append, List.append_nil]
    simp only [Option.some.injEq, exists_eq_left', reduceCtorEq, false_and, exists_false,
      or_false, false_or]
    rw [validatePositive_ne_nil]
  · simp only [ValidateMachineRollingUpdateDeployment]
    rw [List.append_nil, List.append_nil]
    simp only [Option.some.injEq, exists_eq_left', reduceCtorEq, false_and, exists_false,
      or_false, and_false]
    rw [split_ne_nil, validatePositive_ne_nil]
    by_cases ht : isValidPercent (strValOf u) = true ∧ 100 < getIntOrPercentD u false <;>
      simp [ht]
  · simp only [ValidateMachineRollingUpdateDeployment]
    simp only [Option.some.injEq, exists_eq_left', exists_and_left, exists_eq_left]
    simp only [split_ne_nil, validatePositive_ne_nil]
    by_cases ht : isValidPercent (strValOf u) = true ∧ 100 < getIntOrPercentD u false <;>
      by_cases hz : getIntOrPercentD u false = 0 ∧ getIntOrPercentD v true = 0 <;>
      simp [ht, hz]

/-- Counterexample to C9 as stated: the string "50" is neither an integer nor
a string of the form N%, i.e. malformed per the claim, yet the validator
accepts a maxUnavailable of "50" with no error (the library parser deletes
`%` characters and reads the rest as an integer). -/
theorem validateRollingUpdate_claim_cex :
    claimMalformed (IntOrString.strVal "50") = true ∧
    ValidateMachineRollingUpdateDeployment ⟨some (IntOrString.strVal "50"), none⟩ = [] := by
  constructor
  · decide
  · decide

/-- Witness for C9 (amended) at a concrete input: maxSurge = 0 and
maxUnavailable = 0 yields at least one error via the both-zero condition. -/
theorem validateRollingUpdate_error_characterization_instance :
    ValidateMachineRollingUpdateDeployment
      ⟨some (IntOrString.intVal 0), some (IntOrString.intVal 0)⟩ ≠ [] :=
  (validateRollingUpdate_error_characterization
    ⟨some (IntOrString.intVal 0), some (IntOrString.intVal 0)⟩).mpr
    (Or.inr (Or.inr ⟨IntOrString.intVal 0, IntOrString.intVal 0, rfl, rfl,
      by decide, by decide⟩))
